import Mathlib

/-!
Shallow embedding of `tag_quiz.py`, an interactive Penn-Treebank tagging quiz.

Conventions of the embedding:
* A parse tree is represented by the list of its leaf `(token, tag)` pairs,
  which is all `tag_quiz.py` ever reads from a tree (via `sent.pos()`).
* Python strings are Lean `String`s; Python `str.upper()` is modelled by the
  ASCII fold `Char.toUpper` on each character (the tags and guesses involved
  are ASCII), `str.split()` by splitting on whitespace runs and discarding
  empty pieces, and slicing `l[a:b]` by `pySlice` with Python clamping and
  negative-index normalization.
* `randint(a, b)` is modelled by an explicit `start` parameter together with
  the fact that the call raises `ValueError` exactly when `b < a`; `get_sents`
  returns `none` in that case.
* Console interaction in `sentence_quiz` is modelled by passing the list of
  lines the user types; the `while` retry loop becomes the recursion
  `guess_loop` over that list.  A run that exhausts the list without a
  length-valid guess is `SQOut.needsInput`; the `ZeroDivisionError` that
  Python raises when `round(correct / len(tags) * 100)` divides by zero is
  `SQOut.divByZero`.
* Python exact-integer arithmetic on counts and the float division in
  `average = sum(...) / len(...)` are modelled over `Rat` (the counts are
  small nonnegative integers).
-/

namespace TagQuiz

/-- Python `str.upper()` : uppercase-fold every character (ASCII model). -/
def pyUpper (s : String) : String :=
  String.mk (s.data.map Char.toUpper)

/-- The whitespace characters Python `str.split()` splits on (ASCII model). -/
def isPySpace (c : Char) : Bool :=
  c = ' ' || c = '\t' || c = '\n' || c = '\r'

/-- Worker for `str.split()`: scans the characters, accumulating the current
word in reverse in `acc`; whitespace ends a word, runs of whitespace produce
no empty words. -/
def pySplitChars : List Char → List Char → List (List Char)
  | [], acc => if acc.isEmpty then [] else [acc.reverse]
  | c :: cs, acc =>
    if isPySpace c then
      if acc.isEmpty then pySplitChars cs []
      else acc.reverse :: pySplitChars cs []
    else pySplitChars cs (c :: acc)

/-- Python `str.split()` with no separator argument. -/
def pySplit (s : String) : List String :=
  (pySplitChars s.data []).map String.mk

/-- Python list slicing `l[start : stop]` (step 1) for a nonnegative `start`:
a negative `stop` counts from the end, and both bounds are clamped. -/
def pySlice {α : Type} (l : List α) (start : Nat) (stop : Int) : List α :=
  let stopN : Nat := if stop < 0 then ((l.length : Int) + stop).toNat else min stop.toNat l.length
  (l.take stopN).drop start

/-- `get_sents(corpus, number)` from `tag_quiz.py`.  The pseudo-random draw
`randint(0, len(corpus) - number)` is modelled by the explicit argument
`start`; the call raises `ValueError` (here: `none`) exactly when
`len(corpus) - number < 0`.  Otherwise it returns `corpus[start : start + number]`. -/
def get_sents {α : Type} (corpus : List α) (number : Int) (start : Nat) : Option (List α) :=
  if (corpus.length : Int) - number < 0 then none
  else some (pySlice corpus start ((start : Int) + number))

/-- The body of the inner loop of `parsed_to_tagged`: keep the leaf pairs
whose tag is not `"-NONE-"`, by appending to an accumulator as the `for`
loop does. -/
def tag_filter_sent (sent : List (String × String)) : List (String × String) :=
  sent.foldl (fun acc p => if p.2 ≠ "-NONE-" then acc ++ [p] else acc) []

/-- `parsed_to_tagged(parsed_sents)` from `tag_quiz.py`: one tagged sentence
per tree, in order, each obtained by dropping the `-NONE-` leaves. -/
def parsed_to_tagged (parsed_sents : List (List (String × String))) :
    List (List (String × String)) :=
  parsed_sents.foldl (fun acc sent => acc ++ [tag_filter_sent sent]) []

/-- The grading section of `sentence_quiz` (lines 168-198), applied once the
length-validated guess list is available: zip tokens, gold tags and guesses,
collect the mismatching triples, and return
`(correct, len(tags), mistakes)`. -/
def grade_core (tagged_sent : List (String × String)) (guess_tags : List String) :
    Nat × Nat × List (String × String) :=
  let tokens := tagged_sent.map Prod.fst
  let tags := tagged_sent.map Prod.snd
  let tokens_guesses := tokens.zip (tags.zip guess_tags)
  let incorrect := tokens_guesses.filter (fun t => t.2.1 ≠ t.2.2)
  let correct := tags.length - incorrect.length
  let mistakes := incorrect.map (fun t => (t.2.1, t.2.2))
  (correct, tags.length, mistakes)

/-- The length-mismatch feedback printed by the retry loop of
`sentence_quiz`: how many tags the user supplied, and in which direction it
was wrong. -/
inductive Msg : Type
  | tooMany : Nat → Msg
  | tooFew : Nat → Msg
deriving DecidableEq

/-- The `while not all_tagged` loop of `sentence_quiz`: read a line, fold it
to uppercase, split it; accept it when it has exactly `n` tags, otherwise
emit a too-many/too-few message and re-prompt.  The interaction is driven by
the list of lines the user types; `none` means the loop is still waiting for
input when the list runs out. -/
def guess_loop (n : Nat) : List String → List Msg × Option (List String)
  | [] => ([], none)
  | line :: rest =>
    let g := pySplit (pyUpper line)
    if g.length = n then ([], some g)
    else
      let r := guess_loop n rest
      ((if g.length > n then Msg.tooMany g.length else Msg.tooFew g.length) :: r.1, r.2)

/-- Outcome of one `sentence_quiz` call. -/
inductive SQOut : Type
  | needsInput : SQOut
  | divByZero : SQOut
  | ok : Nat × Nat × List (String × String) → SQOut
deriving DecidableEq

/-- `sentence_quiz(tagged_sent)` from `tag_quiz.py`, with the console input
modelled by the list of lines the user types.  After the retry loop accepts a
guess list, the function computes the score and prints
`round(correct / len(tags) * 100)`: when `len(tags) = 0` that division raises
`ZeroDivisionError`, modelled as `SQOut.divByZero`. -/
def sentence_quiz (tagged_sent : List (String × String)) (inputs : List String) :
    List Msg × SQOut :=
  let n := tagged_sent.length
  let r := guess_loop n inputs
  match r.2 with
  | none => (r.1, SQOut.needsInput)
  | some guesses =>
    let g := grade_core tagged_sent guesses
    if g.2.1 = 0 then (r.1, SQOut.divByZero) else (r.1, SQOut.ok g)

/-- One step of the counting loop in `quiz`: `d[k] += 1` if `k` is a key of
`d`, else `d[k] = 1`.  The association list keeps Python dict insertion
order. -/
def bump (m : List (String × Nat)) (k : String) : List (String × Nat) :=
  match m with
  | [] => [(k, 1)]
  | (k', v) :: rest => if k' = k then (k', v + 1) :: rest else (k', v) :: bump rest k

/-- Python `d[k]`-with-default on the association-list model of a dict:
the value stored under the first matching key, if any. -/
def keyVal (m : List (String × Nat)) (k : String) : Option Nat :=
  match m with
  | [] => none
  | (k1, v) :: rest => if k1 = k then some v else keyVal rest k

/-- The aggregation loop of `quiz` (lines 235-247): build `mistagged`
(keyed by gold tag) and `overused` (keyed by guessed tag) from the flattened
mistakes by occurrence counting. -/
def build_counts (mistakes : List (String × String)) :
    List (String × Nat) × List (String × Nat) :=
  mistakes.foldl (fun mo p => (bump mo.1 p.1, bump mo.2 p.2)) ([], [])

/-- The "frequently mistagged" report of `quiz` (lines 249-254): skipped
(`none`) when `mistagged` is empty, otherwise the entries whose count is at
least `sum / len` (Python float division, modelled exactly over `Rat`). -/
def freq_report (mistagged : List (String × Nat)) : Option (List (String × Nat)) :=
  if 0 < mistagged.length then
    let avg : Rat := (((mistagged.map Prod.snd).sum : Nat) : Rat) / ((mistagged.length : Nat) : Rat)
    some (mistagged.filter (fun p => ((p.2 : Nat) : Rat) ≥ avg))
  else none

/-- The flattening step of `quiz` (line 233): the mistakes of all sentence
results, joined in sentence order. -/
def flat_mistakes (results : List (Nat × Nat × List (String × String))) :
    List (String × String) :=
  (results.map (fun r => r.2.2)).flatten

/-- The final-score percentage of `quiz` (line 230):
`round(total_correct / total_attempted * 100)` divides by `total_attempted`
with no guard, raising `ZeroDivisionError` (`none`) when it is zero. -/
def final_pct (total_correct total_attempted : Nat) : Option Rat :=
  if total_attempted = 0 then none
  else some ((total_correct : Rat) / (total_attempted : Rat) * 100)

/-! ## Helper lemmas -/

/-- A fold that conditionally appends singletons is `filter` on top of the
accumulator. -/
theorem foldl_ite_append {α : Type} (P : α → Prop) [DecidablePred P] (l : List α) :
    ∀ acc : List α,
      l.foldl (fun acc p => if P p then acc ++ [p] else acc) acc
        = acc ++ l.filter (fun a => P a) := by
  induction l with
  | nil => intro acc; simp
  | cons a as ih =>
    intro acc
    by_cases h : P a <;> simp [h, ih, List.filter_cons]

/-- A fold that appends one image per element is `map` on top of the
accumulator. -/
theorem foldl_map_append {α β : Type} (f : α → β) (l : List α) :
    ∀ acc : List β,
      l.foldl (fun acc x => acc ++ [f x]) acc = acc ++ l.map f := by
  induction l with
  | nil => intro acc; simp
  | cons a as ih => intro acc; simp [ih]

/-- The inner loop of `parsed_to_tagged` keeps exactly the leaves whose tag
is not `-NONE-`, in order. -/
theorem tag_filter_sent_eq_filter (sent : List (String × String)) :
    tag_filter_sent sent = sent.filter (fun p => p.2 ≠ "-NONE-") := by
  unfold tag_filter_sent
  rw [foldl_ite_append (fun p : String × String => p.2 ≠ "-NONE-") sent []]
  simp

/-- `parsed_to_tagged` maps the leaf filter over the trees. -/
theorem parsed_to_tagged_eq_map (trees : List (List (String × String))) :
    parsed_to_tagged trees = trees.map tag_filter_sent := by
  simpa using foldl_map_append tag_filter_sent trees []

/-- Projecting the mismatching triples of `sentence_quiz` to
`(gold, guess)` pairs filters the zipped tag/guess pairs. -/
theorem zip3_filter_map (tok : List String) (tg : List (String × String))
    (h : tok.length = tg.length) :
    ((tok.zip tg).filter (fun t => t.2.1 ≠ t.2.2)).map
        (fun t : String × String × String => t.2)
      = tg.filter (fun p => p.1 ≠ p.2) := by
  induction tok generalizing tg with
  | nil =>
    cases tg with
    | nil => simp
    | cons b bs => simp at h
  | cons a as ih =>
    cases tg with
    | nil => simp at h
    | cons b bs =>
      simp only [List.length_cons, Nat.succ.injEq] at h
      by_cases hb : b.1 = b.2 <;>
      · simp [List.zip_cons_cons, List.filter_cons, hb]
        simpa using ih bs h

/-! ## Claims -/

/-- C1: for every tagged sentence `S` and guess sequence `G` with
`G.length = S.length`, grading satisfies
`correct_count + mistakes.length = S.length`, the reported total is
`S.length`, and the mistakes are exactly the mismatching
`(gold_tag, guessed_tag)` pairs, in token order. -/
theorem C1_grade_partition (S : List (String × String)) (G : List String)
    (h : G.length = S.length) :
    (grade_core S G).1 + (grade_core S G).2.2.length = S.length ∧
    (grade_core S G).2.1 = S.length ∧
    (grade_core S G).2.2 = ((S.map Prod.snd).zip G).filter (fun p => p.1 ≠ p.2) := by
  have hlen : (S.map Prod.fst).length = ((S.map Prod.snd).zip G).length := by
    simp [List.length_zip, h]
  have hm := zip3_filter_map (S.map Prod.fst) ((S.map Prod.snd).zip G) hlen
  have hfl : (((S.map Prod.fst).zip ((S.map Prod.snd).zip G)).filter
      (fun t => t.2.1 ≠ t.2.2)).length ≤ S.length := by
    refine le_trans (List.length_filter_le _ _) ?_
    simp [List.length_zip, h]
  refine ⟨?_, by simp [grade_core], ?_⟩
  · simp only [grade_core, List.length_map]
    omega
  · simpa only [grade_core] using hm

/-- C1 witness: spec scenario 2 — gold `DT NN VBD PRP .`, guesses
`DT VB VBD PRP .` give 4 correct out of 5 with the single mistake
`(NN, VB)`. -/
theorem C1_grade_partition_witness :
    (grade_core [("The", "DT"), ("man", "NN"), ("saw", "VBD"), ("me", "PRP"), (".", ".")]
        ["DT", "VB", "VBD", "PRP", "."]).1
      + (grade_core [("The", "DT"), ("man", "NN"), ("saw", "VBD"), ("me", "PRP"), (".", ".")]
        ["DT", "VB", "VBD", "PRP", "."]).2.2.length = 5 :=
  (C1_grade_partition
    [("The", "DT"), ("man", "NN"), ("saw", "VBD"), ("me", "PRP"), (".", ".")]
    ["DT", "VB", "VBD", "PRP", "."] (by decide)).1

/-- C3 counterexample: the claim says a requested count of `0 <= 0` makes the
sampler fail and return no sentences, but `get_sents` on a two-sentence
corpus with `number = 0` succeeds: `randint(0, 2)` does not raise, and the
empty slice is returned normally. -/
theorem C3_counterexample : get_sents ["a", "b"] 0 1 = some [] := by decide

/-- C3 amended: the sampler fails (the `randint` call raises `ValueError`)
exactly when the requested count exceeds the corpus length; a non-positive
count is not rejected — the call returns a (possibly empty) slice normally. -/
theorem C3_fail_iff_too_many {α : Type} (corpus : List α) (number : Int) (start : Nat) :
    get_sents corpus number start = none ↔ (corpus.length : Int) < number := by
  unfold get_sents
  split
  · next hc => simp; omega
  · next hc => simp; omega

/-- C5: the tree normalizer returns one tagged sentence per input tree in
order — the i-th output is the i-th tree filtered to its leaves whose tag is
not `-NONE-` (preserving leaf order) — and a tree with zero taggable leaves
yields the empty sentence rather than an error. -/
theorem C5_normalize (trees : List (List (String × String))) :
    parsed_to_tagged trees = trees.map (fun t => t.filter (fun p => p.2 ≠ "-NONE-")) ∧
    (parsed_to_tagged trees).length = trees.length ∧
    ∀ t ∈ trees, (∀ p ∈ t, p.2 = "-NONE-") → tag_filter_sent t = [] := by
  refine ⟨?_, ?_, ?_⟩
  · rw [parsed_to_tagged_eq_map]
    exact List.map_congr_left fun t _ => tag_filter_sent_eq_filter t
  · rw [parsed_to_tagged_eq_map]; simp
  · intro t _ hall
    rw [tag_filter_sent_eq_filter]
    simp only [List.filter_eq_nil_iff]
    intro p hp
    simp [hall p hp]

/-- C5 witness: a tree whose first leaf is a `-NONE-` placeholder keeps only
the taggable leaf, and an all-placeholder tree normalizes to the empty
sentence. -/
theorem C5_normalize_witness :
    parsed_to_tagged [[("a", "-NONE-"), ("b", "NN")], [("x", "-NONE-")]]
      = [[("b", "NN")], []] := by
  rw [(C5_normalize [[("a", "-NONE-"), ("b", "NN")], [("x", "-NONE-")]]).1]
  decide

/-- C6: for `1 <= number <= corpus.length` and any admissible random start
index `start <= corpus.length - number`, the sampler returns exactly the
contiguous slice `[start, start + number)` of the corpus: it has exactly
`number` elements and lies fully within corpus bounds. -/
theorem C6_sampler_window {α : Type} (corpus : List α) (number : Int) (start : Nat)
    (h1 : 1 ≤ number) (h2 : number ≤ (corpus.length : Int))
    (h3 : (start : Int) ≤ (corpus.length : Int) - number) :
    get_sents corpus number start = some ((corpus.drop start).take number.toNat) ∧
    ((corpus.drop start).take number.toNat).length = number.toNat ∧
    (start : Int) + number ≤ (corpus.length : Int) := by
  have hsb : start + number.toNat ≤ corpus.length := by omega
  refine ⟨?_, ?_, by omega⟩
  · unfold get_sents
    rw [if_neg (by omega)]
    unfold pySlice
    rw [if_neg (by omega)]
    have hstop : ((start : Int) + number).toNat = start + number.toNat := by omega
    have hmin : min ((start : Int) + number).toNat corpus.length = start + number.toNat := by
      omega
    rw [hmin, ← List.take_drop start number.toNat corpus]
  · rw [List.length_take, List.length_drop]
    omega

/-- C6 witness: drawing two sentences starting at index 1 of a three-sentence
corpus returns exactly the middle-and-last window. -/
theorem C6_sampler_window_witness :
    get_sents ["s0", "s1", "s2"] 2 1 = some ["s1", "s2"] :=
  (C6_sampler_window ["s0", "s1", "s2"] 2 1 (by decide) (by decide) (by decide)).1

/-- The retry loop depends on its input lines only through their uppercase
fold. -/
theorem guess_loop_congr (n : Nat) (inputs1 inputs2 : List String)
    (h : inputs1.map pyUpper = inputs2.map pyUpper) :
    guess_loop n inputs1 = guess_loop n inputs2 := by
  induction inputs1 generalizing inputs2 with
  | nil =>
    cases inputs2 with
    | nil => rfl
    | cons b bs => simp at h
  | cons a as ih =>
    cases inputs2 with
    | nil => simp at h
    | cons b bs =>
      simp only [List.map_cons, List.cons.injEq] at h
      simp only [guess_loop, h.1, ih bs h.2]

/-- C2 counterexample: the claim says grading is invariant under changing the
letter case of the gold tags, but only the guess line is uppercase-folded:
two sentences whose gold tags differ only in case (`nn` vs `NN`) are graded
differently against the same user input `nn`. -/
theorem C2_counterexample :
    sentence_quiz [("w", "nn")] ["nn"] ≠ sentence_quiz [("w", "NN")] ["nn"] := by
  decide

/-- C2 amended: grading is case-insensitive in the guesses only — the raw
input line is uppercase-folded before it is split and compared, so runs whose
input lines differ only in letter case are graded identically; gold tags are
compared in their original case. -/
theorem C2_guess_case_insensitive (S : List (String × String))
    (inputs1 inputs2 : List String)
    (h : inputs1.map pyUpper = inputs2.map pyUpper) :
    sentence_quiz S inputs1 = sentence_quiz S inputs2 := by
  have hg := guess_loop_congr S.length inputs1 inputs2 h
  simp only [sentence_quiz, hg]

/-- C2 witness: the guess lines `nn` and `Nn` fold to the same line, so the
runs are graded identically. -/
theorem C2_guess_case_insensitive_witness :
    (["nn"].map pyUpper = ["Nn"].map pyUpper) ∧
    sentence_quiz [("w", "NN")] ["nn"] = sentence_quiz [("w", "NN")] ["Nn"] :=
  ⟨by decide, C2_guess_case_insensitive [("w", "NN")] ["nn"] ["Nn"] (by decide)⟩

/-- C7 counterexample: the claim says a recorded mistake preserves the guess
exactly as the user supplied it, but the user input `nn` for the gold tag
`VB` is recorded as the uppercase-folded `("VB", "NN")`, not `("VB", "nn")`. -/
theorem C7_counterexample :
    sentence_quiz [("cat", "VB")] ["nn"] = ([], SQOut.ok (0, 1, [("VB", "NN")])) ∧
    ("NN" : String) ≠ "nn" := by
  decide

/-- C7 amended: each recorded mistake at a mismatch position `i` is
`(sentence[i].tag, upper(guesses[i]))` — the gold tag keeps its original
case, the guess is stored uppercase-folded (not as supplied) — appended in
token order. -/
theorem C7_mistake_pairs (S : List (String × String)) (line : String)
    (h : (pySplit (pyUpper line)).length = S.length) :
    (grade_core S (pySplit (pyUpper line))).2.2
      = ((S.map Prod.snd).zip (pySplit (pyUpper line))).filter
          (fun p => p.1 ≠ p.2) := by
  have hlen : (S.map Prod.fst).length
      = ((S.map Prod.snd).zip (pySplit (pyUpper line))).length := by
    simp [List.length_zip, h]
  simpa only [grade_core]
    using zip3_filter_map (S.map Prod.fst) ((S.map Prod.snd).zip (pySplit (pyUpper line))) hlen

/-- C7 witness: for gold tag `VB` and typed guess `nn`, the recorded mistake
is the folded pair `("VB", "NN")`. -/
theorem C7_mistake_pairs_witness :
    (grade_core [("cat", "VB")] (pySplit (pyUpper "nn"))).2.2 = [("VB", "NN")] := by
  rw [C7_mistake_pairs [("cat", "VB")] "nn" (by decide)]
  decide

/-- C4 (code bug): grading a zero-token sentence does not complete — the
per-sentence report divides by `len(tags) = 0` with no guard
(`ZeroDivisionError`), and the final-score division by `total_attempted` is
equally unguarded, contrary to the claim that such a sentence yields
`correct_count = 0, total_count = 0` and that every percentage division is
guarded. -/
theorem C4_zero_division :
    sentence_quiz [] [""] = ([], SQOut.divByZero) ∧ final_pct 0 0 = none := by
  decide

/-- A guess list accepted by the retry loop has exactly `n` entries. -/
theorem guess_loop_some_length (n : Nat) :
    ∀ (inputs : List String) (g : List String),
      (guess_loop n inputs).2 = some g → g.length = n := by
  intro inputs
  induction inputs with
  | nil => intro g hg; simp [guess_loop] at hg
  | cons a as ih =>
    intro g hg
    by_cases hl : (pySplit (pyUpper a)).length = n
    · rw [guess_loop, if_pos hl] at hg
      cases hg
      exact hl
    · rw [guess_loop, if_neg hl] at hg
      exact ih g hg

/-- The messages of the retry loop: one per leading length-invalid line,
`tooMany` when too many tags were supplied and `tooFew` otherwise. -/
theorem guess_loop_msgs (n : Nat) :
    ∀ inputs : List String,
      (guess_loop n inputs).1
        = (inputs.takeWhile fun l => (pySplit (pyUpper l)).length ≠ n).map
            (fun l => if (pySplit (pyUpper l)).length > n
              then Msg.tooMany (pySplit (pyUpper l)).length
              else Msg.tooFew (pySplit (pyUpper l)).length) := by
  intro inputs
  induction inputs with
  | nil => simp [guess_loop]
  | cons a as ih =>
    by_cases hl : (pySplit (pyUpper a)).length = n
    · rw [guess_loop, if_pos hl]
      simp [hl]
    · have hp : (decide ((pySplit (pyUpper a)).length ≠ n)) = true := by simpa using hl
      rw [guess_loop, if_neg hl, List.takeWhile_cons, if_pos hp, List.map_cons, ← ih]

/-- The retry loop never stops on its own: `k` length-invalid lines produce
`k` re-prompts and no accepted guess, for every `k`. -/
theorem guess_loop_unbounded (n : Nat) (hn : 0 < n) :
    ∀ k, (guess_loop n (List.replicate k "")).2 = none ∧
         (guess_loop n (List.replicate k "")).1.length = k := by
  intro k
  have hne : (pySplit (pyUpper "")).length ≠ n := by
    have : (pySplit (pyUpper "")).length = 0 := by decide
    omega
  induction k with
  | zero => simp [guess_loop]
  | succ k ih =>
    rw [List.replicate_succ, guess_loop, if_neg hne]
    simpa using ih

/-- C9: the orchestrator re-prompts until the guess count matches the
sentence length — each rejected line is answered with a too-many/too-few
message naming the supplied count, there is no bound on the number of
re-prompts, and any accepted guess sequence has exactly the sentence
length, so grading is never reached with a mismatched length. -/
theorem C9_retry_until_length (n : Nat) (inputs : List String) :
    (∀ g, (guess_loop n inputs).2 = some g → g.length = n) ∧
    (guess_loop n inputs).1
      = (inputs.takeWhile fun l => (pySplit (pyUpper l)).length ≠ n).map
          (fun l => if (pySplit (pyUpper l)).length > n
            then Msg.tooMany (pySplit (pyUpper l)).length
            else Msg.tooFew (pySplit (pyUpper l)).length) ∧
    (∀ k, 0 < n →
        (guess_loop n (List.replicate k "")).2 = none ∧
        (guess_loop n (List.replicate k "")).1.length = k) :=
  ⟨guess_loop_some_length n inputs, guess_loop_msgs n inputs,
    fun k hn => guess_loop_unbounded n hn k⟩

/-- C9 witness: spec scenario 3 — after one too-short line the loop accepts
a five-tag line, whose guess list indeed has five entries; and three invalid
lines in a row yield three re-prompts with no acceptance. -/
theorem C9_retry_until_length_witness :
    (["A", "B", "C", "D", "E"] : List String).length = 5 ∧
    (guess_loop 5 (List.replicate 3 "")).2 = none :=
  ⟨(C9_retry_until_length 5 ["a b c", "a b c d e"]).1 ["A", "B", "C", "D", "E"]
      (by decide),
    ((C9_retry_until_length 5 []).2.2 3 (by decide)).1⟩

/-- Packing a valid codepoint and reading it back is the identity. -/
theorem toNat_ofNatAux (n : Nat) (h : n.isValidChar) : (Char.ofNatAux n h).toNat = n := rfl

/-- `Char.isLower` in terms of the codepoint. -/
theorem isLower_eq_decide (c : Char) :
    c.isLower = (decide (97 ≤ c.toNat) && decide (c.toNat ≤ 122)) := by
  simp only [Char.isLower, ge_iff_le, UInt32.le_def, Char.toNat, UInt32.toNat, BitVec.le_def]
  rfl

/-- Uppercase-folding never yields a lowercase ASCII letter. -/
theorem isLower_toUpper (c : Char) : (Char.toUpper c).isLower = false := by
  unfold Char.toUpper
  by_cases h : c.toNat ≥ 97 ∧ c.toNat ≤ 122
  · rw [if_pos h]
    have hv : (c.toNat - 32).isValidChar := Or.inl (by omega)
    rw [Char.ofNat, dif_pos hv]
    rw [isLower_eq_decide, toNat_ofNatAux]
    simp only [Bool.and_eq_false_iff, decide_eq_false_iff_not]
    omega
  · rw [if_neg h]
    rw [isLower_eq_decide]
    simp only [Bool.and_eq_false_iff, decide_eq_false_iff_not]
    omega

/-- Uppercase-folding fixes characters that are not lowercase ASCII letters. -/
theorem toUpper_eq_self (c : Char) (h : c.isLower = false) : Char.toUpper c = c := by
  rw [isLower_eq_decide] at h
  simp only [Bool.and_eq_false_iff, decide_eq_false_iff_not] at h
  unfold Char.toUpper
  rw [if_neg (by omega)]

/-- Every character of every word produced by the split worker comes from
the scanned characters or the accumulator. -/
theorem pySplitChars_mem (P : Char → Prop) :
    ∀ (cs acc : List Char), (∀ c ∈ cs, P c) → (∀ c ∈ acc, P c) →
      ∀ tok ∈ pySplitChars cs acc, ∀ ch ∈ tok, P ch := by
  intro cs
  induction cs with
  | nil =>
    intro acc hcs hacc tok htok ch hch
    unfold pySplitChars at htok
    by_cases ha : acc.isEmpty
    · rw [if_pos ha] at htok
      simp at htok
    · rw [if_neg ha] at htok
      simp only [List.mem_singleton] at htok
      subst htok
      exact hacc ch (List.mem_reverse.mp hch)
  | cons c cs ih =>
    intro acc hcs hacc tok htok ch hch
    unfold pySplitChars at htok
    by_cases hsp : isPySpace c = true
    · rw [if_pos hsp] at htok
      by_cases ha : acc.isEmpty
      · rw [if_pos ha] at htok
        exact ih [] (fun d hd => hcs d (List.mem_cons_of_mem c hd)) (by simp)
          tok htok ch hch
      · rw [if_neg ha] at htok
        rcases List.mem_cons.mp htok with h1 | h2
        · subst h1
          exact hacc ch (List.mem_reverse.mp hch)
        · exact ih [] (fun d hd => hcs d (List.mem_cons_of_mem c hd)) (by simp)
            tok h2 ch hch
    · rw [if_neg hsp] at htok
      refine ih (c :: acc) (fun d hd => hcs d (List.mem_cons_of_mem c hd)) ?_ tok htok ch hch
      intro d hd
      rcases List.mem_cons.mp hd with h1 | h2
      · subst h1; exact hcs d (List.mem_cons_self _ _)
      · exact hacc d h2

/-- Every character of every token of the split of an uppercase-folded line
is non-lowercase. -/
theorem pySplit_pyUpper_not_lower (line : String) :
    ∀ tok ∈ pySplit (pyUpper line), ∀ ch ∈ tok.data, ch.isLower = false := by
  intro tok htok ch hch
  obtain ⟨cs, hcs, rfl⟩ := List.mem_map.mp htok
  refine pySplitChars_mem (fun c => c.isLower = false) (pyUpper line).data []
    ?_ (by simp) cs hcs ch hch
  intro c hc
  obtain ⟨d, _, rfl⟩ := List.mem_map.mp hc
  exact isLower_toUpper d

/-- A guess list accepted by the retry loop is the uppercase-folded split of
one of the typed lines. -/
theorem guess_loop_some_src (n : Nat) :
    ∀ (inputs : List String) (g : List String), (guess_loop n inputs).2 = some g →
      ∃ line ∈ inputs, g = pySplit (pyUpper line) := by
  intro inputs
  induction inputs with
  | nil => intro g hg; simp [guess_loop] at hg
  | cons a as ih =>
    intro g hg
    by_cases hl : (pySplit (pyUpper a)).length = n
    · rw [guess_loop, if_pos hl] at hg
      cases hg
      exact ⟨a, List.mem_cons_self _ _, rfl⟩
    · rw [guess_loop, if_neg hl] at hg
      obtain ⟨line, hline, hgl⟩ := ih g hg
      exact ⟨line, List.mem_cons_of_mem a hline, hgl⟩

/-- The guessed-tag component of every recorded mistake is one of the guess
tags handed to the grader. -/
theorem grade_core_mistake_snd (S : List (String × String)) (G : List String) :
    ∀ p ∈ (grade_core S G).2.2, p.2 ∈ G := by
  intro p hp
  simp only [grade_core] at hp
  obtain ⟨trip, htrip, hpt⟩ := List.mem_map.mp hp
  have h1 : trip ∈ (S.map Prod.fst).zip ((S.map Prod.snd).zip G) :=
    List.mem_of_mem_filter htrip
  have h2 : trip.2 ∈ (S.map Prod.snd).zip G := (List.of_mem_zip h1).2
  have h3 : trip.2.2 ∈ G := (List.of_mem_zip h2).2
  rw [← hpt]
  exact h3

/-- Every key of a `bump` result is the bumped key or an existing key. -/
theorem bump_keys (m : List (String × Nat)) (k : String) :
    ∀ p ∈ bump m k, p.1 = k ∨ p.1 ∈ m.map Prod.fst := by
  induction m with
  | nil => intro p hp; simp [bump] at hp; simp [hp]
  | cons q rest ih =>
    intro p hp
    rw [bump] at hp
    by_cases hq : q.1 = k
    · rw [if_pos hq] at hp
      rcases List.mem_cons.mp hp with h1 | h2
      · left; rw [h1]; exact hq
      · right; exact List.mem_cons_of_mem _ (List.mem_map_of_mem Prod.fst h2)
    · rw [if_neg hq] at hp
      rcases List.mem_cons.mp hp with h1 | h2
      · right; rw [h1]; simp
      · rcases ih p h2 with h3 | h4
        · left; exact h3
        · right; exact List.mem_cons_of_mem _ h4

/-- Every key of the `overused` accumulator comes from the starting
accumulator or from the guessed-tag components of the counted mistakes. -/
theorem foldl_bump_snd_keys :
    ∀ (ms : List (String × String)) (acc : List (String × Nat) × List (String × Nat)),
      ∀ p ∈ (ms.foldl (fun mo q => (bump mo.1 q.1, bump mo.2 q.2)) acc).2,
        p.1 ∈ acc.2.map Prod.fst ∨ p.1 ∈ ms.map Prod.snd := by
  intro ms
  induction ms with
  | nil => intro acc p hp; exact Or.inl (List.mem_map_of_mem Prod.fst hp)
  | cons q qs ih =>
    intro acc p hp
    rw [List.foldl_cons] at hp
    rcases ih (bump acc.1 q.1, bump acc.2 q.2) p hp with h1 | h2
    · simp only [List.mem_map] at h1
      obtain ⟨r, hr, hrp⟩ := h1
      rcases bump_keys acc.2 q.2 r hr with h3 | h4
      · right; rw [← hrp, h3]; simp
      · left
        rw [← hrp]
        exact h4
    · right; exact List.mem_cons_of_mem _ h2

/-- C10: in any completed `sentence_quiz` run, every guessed tag stored in
the mistakes is free of lowercase ASCII letters (the whole input line was
uppercase-folded before splitting); hence every key of the `overused`
counter is too, and any two such keys that agree after uppercase folding
are the same key, so case variants of a guess can never occupy two
`overused` entries. -/
theorem C10_guesses_uppercase (S : List (String × String)) (inputs : List String)
    (msgs : List Msg) (c t : Nat) (mistakes : List (String × String))
    (h : sentence_quiz S inputs = (msgs, SQOut.ok (c, t, mistakes))) :
    (∀ p ∈ mistakes, ∀ ch ∈ p.2.data, ch.isLower = false) ∧
    (∀ p ∈ (build_counts mistakes).2, ∀ ch ∈ p.1.data, ch.isLower = false) ∧
    (∀ g1 g2 : String, (∀ ch ∈ g1.data, ch.isLower = false) →
      (∀ ch ∈ g2.data, ch.isLower = false) → pyUpper g1 = pyUpper g2 → g1 = g2) := by
  have hmain : ∃ g, (guess_loop S.length inputs).2 = some g ∧
      mistakes = (grade_core S g).2.2 := by
    simp only [sentence_quiz] at h
    split at h
    · simp at h
    · next g heq =>
      refine ⟨g, heq, ?_⟩
      by_cases hz : (grade_core S g).2.1 = 0
      · rw [if_pos hz] at h; simp at h
      · rw [if_neg hz] at h
        have h2 := congrArg Prod.snd h
        simp only at h2
        injection h2 with h3
        rw [h3]
  obtain ⟨g, hg, hmk⟩ := hmain
  obtain ⟨line, _, hgl⟩ := guess_loop_some_src S.length inputs g hg
  have hupper : ∀ p ∈ mistakes, ∀ ch ∈ p.2.data, ch.isLower = false := by
    intro p hp ch hch
    have hpg : p.2 ∈ g := grade_core_mistake_snd S g p (hmk ▸ hp)
    exact pySplit_pyUpper_not_lower line p.2 (hgl ▸ hpg) ch hch
  refine ⟨hupper, ?_, ?_⟩
  · intro p hp ch hch
    rcases foldl_bump_snd_keys mistakes ([], []) p hp with h1 | h2
    · simp at h1
    · simp only [List.mem_map] at h2
      obtain ⟨q, hq, hqp⟩ := h2
      exact hupper q hq ch (by rw [hqp]; exact hch)
  · intro g1 g2 h1 h2 hup
    have estring : ∀ s : String, (∀ ch ∈ s.data, ch.isLower = false) → pyUpper s = s := by
      intro s hs
      unfold pyUpper
      rw [List.map_congr_left (fun ch hch => toUpper_eq_self ch (hs ch hch))]
      cases s
      simp
    rw [← estring g1 h1, ← estring g2 h2, hup]

/-- C10 witness: in the run that records the mistake `("VB", "NN")` from the
typed guess `nn`, the stored guess letter `N` is not lowercase. -/
theorem C10_guesses_uppercase_witness : ('N' : Char).isLower = false :=
  (C10_guesses_uppercase [("cat", "VB")] ["nn"] [] 0 1 [("VB", "NN")] (by decide)).1
    ("VB", "NN") (by decide) 'N' (by decide)

/-- The simultaneous dict-building fold of `quiz` splits into one fold per
dict. -/
theorem foldl_bump_pair (ms : List (String × String)) :
    ∀ acc : List (String × Nat) × List (String × Nat),
      ms.foldl (fun mo q => (bump mo.1 q.1, bump mo.2 q.2)) acc
        = ((ms.map Prod.fst).foldl bump acc.1, (ms.map Prod.snd).foldl bump acc.2) := by
  induction ms with
  | nil => intro acc; rfl
  | cons q qs ih => intro acc; rw [List.foldl_cons, ih]; rfl

/-- Bumping a key sets its stored value to old-value-or-zero plus one. -/
theorem keyVal_bump_same (m : List (String × Nat)) (k : String) :
    keyVal (bump m k) k = some ((keyVal m k).getD 0 + 1) := by
  induction m with
  | nil => simp [bump, keyVal]
  | cons q rest ih =>
    obtain ⟨k1, v⟩ := q
    by_cases hq : k1 = k
    · simp [bump, keyVal, hq]
    · simp [bump, keyVal, hq, ih]

/-- Bumping one key leaves every other key unchanged. -/
theorem keyVal_bump_other (m : List (String × Nat)) (k k2 : String) (hne : k2 ≠ k) :
    keyVal (bump m k) k2 = keyVal m k2 := by
  induction m with
  | nil => simp [bump, keyVal, Ne.symm hne]
  | cons q rest ih =>
    obtain ⟨k1, v⟩ := q
    by_cases hq : k1 = k
    · subst hq
      simp [bump, keyVal, Ne.symm hne]
    · simp [bump, keyVal, hq, ih]

/-- A key is stored exactly when it is one of the dict keys. -/
theorem keyVal_isSome_iff_mem (m : List (String × Nat)) (k : String) :
    (keyVal m k).isSome = true ↔ k ∈ m.map Prod.fst := by
  induction m with
  | nil => simp [keyVal]
  | cons q rest ih =>
    obtain ⟨k1, v⟩ := q
    by_cases hq : k1 = k
    · simp [keyVal, hq]
    · have hq2 : ¬ k = k1 := fun h => hq h.symm
      simp [keyVal, hq, hq2, ih]

/-- Bumping an existing key keeps the key list; bumping a new key appends
it, as Python dict insertion order does. -/
theorem bump_keys_eq (m : List (String × Nat)) (k : String) :
    (bump m k).map Prod.fst
      = if k ∈ m.map Prod.fst then m.map Prod.fst else m.map Prod.fst ++ [k] := by
  induction m with
  | nil => simp [bump]
  | cons q rest ih =>
    obtain ⟨k1, v⟩ := q
    by_cases hq : k1 = k
    · simp [bump, hq]
    · have hq2 : ¬ k = k1 := fun h => hq h.symm
      by_cases hm : k ∈ rest.map Prod.fst
      · simp [bump, hq, hm, ih, hq2]
      · simp [bump, hq, hm, ih, hq2]

/-- Bumping preserves distinctness of the keys. -/
theorem bump_keys_nodup (m : List (String × Nat)) (k : String)
    (h : (m.map Prod.fst).Nodup) : ((bump m k).map Prod.fst).Nodup := by
  rw [bump_keys_eq]
  split
  · exact h
  · next hm => simp [List.nodup_append, h, hm]

/-- Folding `bump` over a key list preserves distinctness of the dict keys. -/
theorem foldl_bump_keys_nodup (ks : List String) :
    ∀ m, (m.map Prod.fst).Nodup → ((ks.foldl bump m).map Prod.fst).Nodup := by
  induction ks with
  | nil => intro m h; exact h
  | cons a ks2 ih => intro m h; exact ih (bump m a) (bump_keys_nodup m a h)

/-- The stored value after folding `bump` over a key list: present iff the
key was seen or already stored, and the value adds the occurrence count. -/
theorem foldl_bump_keyVal (ks : List String) :
    ∀ (m : List (String × Nat)) (k : String),
      keyVal (ks.foldl bump m) k
        = if k ∈ ks ∨ (keyVal m k).isSome = true
          then some ((keyVal m k).getD 0 + ks.count k) else none := by
  induction ks with
  | nil =>
    intro m k
    cases h : keyVal m k <;> simp [h]
  | cons a ks2 ih =>
    intro m k
    rw [List.foldl_cons, ih (bump m a) k]
    by_cases hak : k = a
    · subst hak
      rw [keyVal_bump_same]
      simp [List.count_cons_self]
      omega
    · rw [keyVal_bump_other m a k hak]
      simp [List.count_cons, hak, List.mem_cons]

/-- With distinct keys, dict entries and stored values coincide. -/
theorem mem_iff_keyVal (m : List (String × Nat)) (hnd : (m.map Prod.fst).Nodup)
    (k : String) (n : Nat) : (k, n) ∈ m ↔ keyVal m k = some n := by
  induction m with
  | nil => simp [keyVal]
  | cons q rest ih =>
    obtain ⟨k1, v⟩ := q
    simp only [List.map_cons, List.nodup_cons] at hnd
    by_cases hq : k1 = k
    · subst hq
      rw [show keyVal ((k1, v) :: rest) k1 = some v from by simp [keyVal]]
      simp only [List.mem_cons, Prod.mk.injEq, Option.some.injEq]
      constructor
      · rintro (⟨-, h⟩ | h)
        · exact h.symm
        · exact absurd (List.mem_map_of_mem Prod.fst h) hnd.1
      · intro h
        exact Or.inl ⟨trivial, h.symm⟩
    · simp only [keyVal, if_neg hq, List.mem_cons, Prod.mk.injEq]
      rw [← ih hnd.2]
      constructor
      · rintro (⟨h1, -⟩ | h)
        · exact absurd h1.symm hq
        · exact h
      · exact Or.inr

/-- An entry `(k, n)` of a fresh occurrence-count dict means exactly that
`k` occurs in the counted list with count `n`. -/
theorem mem_tally_iff (ks : List String) (k : String) (n : Nat) :
    (k, n) ∈ ks.foldl bump [] ↔ (k ∈ ks ∧ n = ks.count k) := by
  have hnd := foldl_bump_keys_nodup ks [] (by simp)
  rw [mem_iff_keyVal _ hnd, foldl_bump_keyVal ks [] k]
  by_cases hk : k ∈ ks <;> simp [hk, keyVal, eq_comm]

/-- A fresh occurrence-count dict is empty only for an empty input. -/
theorem tally_eq_nil_iff (ks : List String) : ks.foldl bump [] = [] ↔ ks = [] := by
  constructor
  · intro h
    cases ks with
    | nil => rfl
    | cons a ks2 =>
      have hmem : (a, (a :: ks2).count a) ∈ (a :: ks2).foldl bump [] :=
        (mem_tally_iff _ _ _).mpr ⟨List.mem_cons_self _ _, rfl⟩
      rw [h] at hmem
      simp at hmem
  · rintro rfl; rfl

/-- C8: the orchestrator counts the flattened mistakes into `mistagged`
(keyed by gold tag) and `overused` (keyed by guessed tag): an entry
`(k, n)` exists exactly when `k` occurs among the corresponding components
with occurrence count `n`.  The frequently-mistagged report is skipped
exactly when there are no mistakes; otherwise it flags exactly the entries
whose count `n` satisfies `n >= average`, i.e.
`sum of counts <= n * number of mistagged keys`. -/
theorem C8_aggregate_report (results : List (Nat × Nat × List (String × String))) :
    (∀ k n, (k, n) ∈ (build_counts (flat_mistakes results)).1 ↔
        (k ∈ (flat_mistakes results).map Prod.fst ∧
         n = ((flat_mistakes results).map Prod.fst).count k)) ∧
    (∀ k n, (k, n) ∈ (build_counts (flat_mistakes results)).2 ↔
        (k ∈ (flat_mistakes results).map Prod.snd ∧
         n = ((flat_mistakes results).map Prod.snd).count k)) ∧
    (freq_report (build_counts (flat_mistakes results)).1 = none ↔
        flat_mistakes results = []) ∧
    (flat_mistakes results ≠ [] →
      ∃ rep, freq_report (build_counts (flat_mistakes results)).1 = some rep ∧
        ∀ k n, (k, n) ∈ rep ↔
          ((k, n) ∈ (build_counts (flat_mistakes results)).1 ∧
            ((build_counts (flat_mistakes results)).1.map Prod.snd).sum
              ≤ n * (build_counts (flat_mistakes results)).1.length)) := by
  have hbc : build_counts (flat_mistakes results)
      = (((flat_mistakes results).map Prod.fst).foldl bump [],
         ((flat_mistakes results).map Prod.snd).foldl bump []) :=
    foldl_bump_pair (flat_mistakes results) ([], [])
  refine ⟨?_, ?_, ?_, ?_⟩
  · intro k n
    rw [hbc]
    exact mem_tally_iff _ k n
  · intro k n
    rw [hbc]
    exact mem_tally_iff _ k n
  · rw [hbc]
    simp only [freq_report]
    constructor
    · intro h
      by_cases hl : 0 < (((flat_mistakes results).map Prod.fst).foldl bump []).length
      · rw [if_pos hl] at h; simp at h
      · rw [if_neg hl] at h
        have : ((flat_mistakes results).map Prod.fst).foldl bump [] = [] := by
          cases hfb : ((flat_mistakes results).map Prod.fst).foldl bump [] with
          | nil => rfl
          | cons x xs => rw [hfb] at hl; simp at hl
        have := (tally_eq_nil_iff _).mp this
        exact List.map_eq_nil_iff.mp this
    · intro h
      rw [h]
      simp [bump]
  · intro hne
    rw [hbc]
    have htne : ((flat_mistakes results).map Prod.fst).foldl bump [] ≠ [] := by
      intro h
      exact hne (List.map_eq_nil_iff.mp ((tally_eq_nil_iff _).mp h))
    have hl : 0 < (((flat_mistakes results).map Prod.fst).foldl bump []).length :=
      List.length_pos.mpr htne
    refine ⟨_, by rw [freq_report, if_pos hl], ?_⟩
    intro k n
    rw [List.mem_filter]
    have hcast :
        (decide ((((k, n).2 : Nat) : Rat)
            ≥ (((((flat_mistakes results).map Prod.fst).foldl bump []).map Prod.snd).sum : Nat)
              / ((((flat_mistakes results).map Prod.fst).foldl bump []).length : Nat)) = true)
          ↔ ((((flat_mistakes results).map Prod.fst).foldl bump []).map Prod.snd).sum
              ≤ n * (((flat_mistakes results).map Prod.fst).foldl bump []).length := by
      rw [decide_eq_true_eq, ge_iff_le, div_le_iff₀ (by exact_mod_cast hl)]
      constructor <;> intro h <;> exact_mod_cast h
    rw [hcast]

/-- C8 witness: spec scenario 4 — two sentences with mistakes
`("NN","VB")` and `("NN","JJ")` produce the mistagged entry `("NN", 2)`. -/
theorem C8_aggregate_report_witness :
    ("NN", 2) ∈ (build_counts (flat_mistakes [(0, 1, [("NN", "VB")]), (0, 1, [("NN", "JJ")])])).1 :=
  ((C8_aggregate_report [(0, 1, [("NN", "VB")]), (0, 1, [("NN", "JJ")])]).1 "NN" 2).mpr
    (by decide)

end TagQuiz
